import Mathlib

/-!
Shallow embedding of `plantNodeDemo/main/src/network/coap_client.c`:
the CoAP URI parser (`parse_coap_uri`, built on the two `sscanf` format
strings it uses), the general option/payload builder
(`coap_message_add_option`, `coap_message_add_payload`), the simplified
encoder (`build_simple_coap_message`), the UDP transport
(`send_coap_udp`, with the platform primitives' results passed in as an
environment), and the dispatch task (`wait_for_wifi`,
`coap_send_sensor_data`, `coap_send_task`).

C strings are modelled as `List Nat` of byte values (no interior NUL);
machine integers are `Nat`/`Int` with explicit `% 2^w` where the C code
relies on wraparound.
-/

/-- Byte values of a string literal (ASCII). -/
def strBytes (s : String) : List Nat := s.toList.map Char.toNat

/-- C `isspace` on a byte, as used by `sscanf` whitespace handling. -/
def isSpaceB (c : Nat) : Bool := c = 32 || c = 9 || c = 10 || c = 11 || c = 12 || c = 13

/-- C `isdigit` on a byte. -/
def isDigitB (c : Nat) : Bool := 48 ≤ c && c ≤ 57

/-- Decimal value accumulated by `sscanf`'s `%d` over a digit string. -/
def digitsVal (ds : List Nat) : Nat := ds.foldl (fun a c => a * 10 + (c - 48)) 0

/-- Skip leading whitespace, as `%d` and `%s` conversions do. -/
def skipWs : List Nat → List Nat
  | [] => []
  | c :: r => if isSpaceB c then skipWs r else c :: r

/-- Match the literal (non-whitespace) characters of a format string. -/
def matchLit : List Nat → List Nat → Option (List Nat)
  | [], s => some s
  | _ :: _, [] => none
  | c :: cs, d :: ds => if c = d then matchLit cs ds else none

/-- Greedily take up to `max` leading bytes satisfying `p`. -/
def scanWhileUpTo (p : Nat → Bool) : Nat → List Nat → List Nat × List Nat
  | 0, s => ([], s)
  | _ + 1, [] => ([], [])
  | n + 1, c :: r =>
    if p c then
      let ab := scanWhileUpTo p n r
      (c :: ab.1, ab.2)
    else ([], c :: r)

/-- `sscanf` `%max[set]` conversion: width-bounded scan-set, failing on an
empty match (scan-sets do not skip leading whitespace). -/
def scanSet (p : Nat → Bool) (max : Nat) (s : List Nat) : Option (List Nat × List Nat) :=
  let ab := scanWhileUpTo p max s
  if ab.1.isEmpty then none else some (ab.1, ab.2)

/-- Unsigned digit run for `%d` (after sign handling): at least one digit. -/
def scanUInt (s : List Nat) : Option (Nat × List Nat) :=
  let ds := s.takeWhile isDigitB
  if ds.isEmpty then none else some (digitsVal ds, s.drop ds.length)

/-- `sscanf` `%d` conversion: skip whitespace, optional sign, digit run. -/
def scanInt (s : List Nat) : Option (Int × List Nat) :=
  match skipWs s with
  | [] => none
  | c :: r =>
    if c = 45 then (scanUInt r).map (fun vr => (-(vr.1 : Int), vr.2))
    else if c = 43 then (scanUInt r).map (fun vr => ((vr.1 : Int), vr.2))
    else (scanUInt (c :: r)).map (fun vr => ((vr.1 : Int), vr.2))

/-- `sscanf` `%maxs` conversion: skip whitespace, then a width-bounded run
of non-whitespace bytes, at least one. -/
def scanStr (max : Nat) (s : List Nat) : Option (List Nat × List Nat) :=
  scanSet (fun c => !isSpaceB c) max (skipWs s)

/-- The bytes of the literal prefix `coap://` in both format strings. -/
def coapLit : List Nat := strBytes "coap://"

/-- `coap_uri_t` from coap_client.c: host/path/query are char arrays
(modelled as byte lists), port is a C `int`. -/
structure coap_uri_t where
  host : List Nat
  port : Int
  path : List Nat
  query : List Nat
deriving DecidableEq, Repr

/-- First parse attempt, `sscanf(uri, "coap://%63[^:/]:%d/%127s", ...)`:
the call succeeds (n >= 2) iff host and port convert; the trailing
`/%127s` is optional, `path_and_query` staying empty (it was zeroed)
when it does not match. -/
def parseFmt1 (s : List Nat) : Option (List Nat × Int × List Nat) :=
  match matchLit coapLit s with
  | none => none
  | some s1 =>
    match scanSet (fun c => !(c = 58 || c = 47)) 63 s1 with
    | none => none
    | some (host, s2) =>
      match matchLit [58] s2 with
      | none => none
      | some s3 =>
        match scanInt s3 with
        | none => none
        | some (port, s4) =>
          match matchLit [47] s4 with
          | none => some (host, port, [])
          | some s5 =>
            match scanStr 127 s5 with
            | none => some (host, port, [])
            | some (paq, _) => some (host, port, paq)

/-- Second parse attempt, `sscanf(uri, "coap://%63[^/]/%127s", ...)`:
needs both conversions (n >= 2). -/
def parseFmt2 (s : List Nat) : Option (List Nat × List Nat) :=
  match matchLit coapLit s with
  | none => none
  | some s1 =>
    match scanSet (fun c => !(c = 47)) 63 s1 with
    | none => none
    | some (host, s2) =>
      match matchLit [47] s2 with
      | none => none
      | some s3 =>
        match scanStr 127 s3 with
        | none => none
        | some (paq, _) => some (host, paq)

/-- `strchr(path_and_query, '?')`: split at the first `?` (byte 63),
returning the parts before and after it. -/
def splitAtQm : List Nat → Option (List Nat × List Nat)
  | [] => none
  | c :: r =>
    if c = 63 then some ([], r)
    else (splitAtQm r).map (fun ab => (c :: ab.1, ab.2))

/-- The path/query split at the end of `parse_coap_uri`: with a `?`,
`path` receives the bytes before it and `query` at most 63 bytes after
it (`strncpy` with `sizeof(query)-1`); without one, `path` receives at
most 63 bytes (`strncpy` with `sizeof(path)-1`) and `query` stays empty. -/
def finishUri (host : List Nat) (port : Int) (paq : List Nat) : coap_uri_t :=
  match splitAtQm paq with
  | some pq => { host := host, port := port, path := pq.1, query := pq.2.take 63 }
  | none => { host := host, port := port, path := paq.take 63, query := [] }

/-- `parse_coap_uri`: try the with-port format, fall back to the
no-port format with the default port 5683. -/
def parse_coap_uri (uri : List Nat) : Option coap_uri_t :=
  match parseFmt1 uri with
  | some hpq => some (finishUri hpq.1 hpq.2.1 hpq.2.2)
  | none =>
    match parseFmt2 uri with
    | some hq => some (finishUri hq.1 5683 hq.2)
    | none => none

/-- `strtok(path, "/")` iteration: the non-empty chunks of the byte list
split on byte 47. -/
def splitSegsAux : List Nat → List Nat → List (List Nat)
  | [], acc => if acc.isEmpty then [] else [acc.reverse]
  | c :: r, acc =>
    if c = 47 then
      if acc.isEmpty then splitSegsAux r [] else acc.reverse :: splitSegsAux r []
    else splitSegsAux r (c :: acc)

/-- The segment list `strtok` yields for a path. -/
def splitSegs (s : List Nat) : List (List Nat) := splitSegsAux s []

/-- Joining segments back with `/` separators. -/
def intercalateSlash : List (List Nat) → List Nat
  | [] => []
  | [s] => s
  | s :: t :: r => s ++ 47 :: intercalateSlash (t :: r)

/-- `coap_message_t` from coap_client.c: caller-supplied buffer (the byte
array, of size `capacity`), current write `length`, and the running
`last_option_number` (a `uint16_t`). -/
structure coap_message_t where
  buffer : List Nat
  length : Nat
  capacity : Nat
  last_option_number : Nat
deriving DecidableEq, Repr

/-- `memcpy`-style write of `data` into `buf` starting at index `pos`
(writes past the end of `buf` are dropped, as `List.set` is). -/
def writeBytes (buf : List Nat) (pos : Nat) : List Nat → List Nat
  | [] => buf
  | b :: bs => writeBytes (buf.set pos b) (pos + 1) bs

/-- `uint16_t delta = option_number - msg->last_option_number`: the
unsigned 16-bit subtraction in `coap_message_add_option`. -/
def optDelta (last option_number : Nat) : Nat :=
  (option_number + 65536 - last) % 65536

/-- The `space_needed` computation of `coap_message_add_option`:
1 byte for delta/length, the value, plus one extra byte per threshold
(13, 269) that delta or the value length reaches. -/
def optSpaceNeeded (delta vlen : Nat) : Nat :=
  1 + vlen
    + (if 13 ≤ delta then 1 else 0) + (if 269 ≤ delta then 1 else 0)
    + (if 13 ≤ vlen then 1 else 0) + (if 269 ≤ vlen then 1 else 0)

/-- Nibble selection shared by the delta and length encodings:
`v` itself below 13, the escape 13 below 269, else the escape 14. -/
def nibbleFor (v : Nat) : Nat :=
  if v < 13 then v else if v < 269 then 13 else 14

/-- The extended bytes following the first option byte for a value `v`
encoded with nibble `nib`: one byte `v - 13` for nibble 13, two
big-endian bytes `v - 269` (truncated to 16 bits) for nibble 14. -/
def extNibbleBytes (v nib : Nat) : List Nat :=
  if nib = 13 then [(v - 13) % 256]
  else if nib = 14 then [(((v - 269) % 65536) / 256) % 256, (v - 269) % 256]
  else []

/-- `coap_message_add_option`: compute the delta and the exact space
needed; reject (returning the message unchanged) if it does not fit;
otherwise write the first byte, the extended delta/length bytes and the
value, advancing `length` by the number of bytes written and recording
the option number. -/
def coap_message_add_option (msg : coap_message_t) (option_number : Nat)
    (value : List Nat) : Bool × coap_message_t :=
  let delta := optDelta msg.last_option_number option_number
  let space_needed := optSpaceNeeded delta value.length
  if msg.capacity < msg.length + space_needed then (false, msg)
  else
    let bytes := (nibbleFor delta * 16 + nibbleFor value.length)
        :: (extNibbleBytes delta (nibbleFor delta)
            ++ extNibbleBytes value.length (nibbleFor value.length)
            ++ value)
    (true, { buffer := writeBytes msg.buffer msg.length bytes,
             length := msg.length + bytes.length,
             capacity := msg.capacity,
             last_option_number := option_number })

/-- `coap_message_add_payload`: an empty payload succeeds with no
effect; otherwise 1 marker byte (0xFF) plus the payload must fit, else
the message is returned unchanged. -/
def coap_message_add_payload (msg : coap_message_t) (payload : List Nat) :
    Bool × coap_message_t :=
  if payload.isEmpty then (true, msg)
  else if msg.capacity < msg.length + 1 + payload.length then (false, msg)
  else
    (true, { buffer := writeBytes (msg.buffer.set msg.length 255) (msg.length + 1) payload,
             length := msg.length + 1 + payload.length,
             capacity := msg.capacity,
             last_option_number := msg.last_option_number })

/-- The `while (segment != NULL ...)` loop of `build_simple_coap_message`:
each `strtok` segment is rejected if longer than 12 bytes, then checked
against the remaining capacity, then emitted as one option byte
(0xB0 | len for the first segment, 0x00 | len for the rest) followed by
the raw segment bytes. -/
def buildSegsLoop (buffer_size : Nat) :
    List (List Nat) → Bool → Nat → List Nat → Option (Nat × List Nat)
  | [], _, pos, out => some (pos, out)
  | seg :: rest, first, pos, out =>
    if 12 < seg.length then none
    else if buffer_size < pos + 1 + seg.length then none
    else buildSegsLoop buffer_size rest false (pos + 1 + seg.length)
        (out ++ (if first then 176 + seg.length else seg.length) :: seg)

/-- `build_simple_coap_message`: fixed 4-byte header `40 02 12 34`, one
Uri-Path option per `strtok` segment of the (63-byte-truncated copy of
the) path, the fixed Content-Format pair `11 32`, the query only logged
(never emitted), then — when the payload is non-empty — the 0xFF marker
and the payload. Returns the written bytes (`*message_len` of them). -/
def build_simple_coap_message (path query payload : List Nat)
    (buffer_size : Nat) : Option (List Nat) :=
  if buffer_size < 4 then none
  else
    match buildSegsLoop buffer_size (splitSegs (path.take 63)) true 4
        [0x40, 0x02, 0x12, 0x34] with
    | none => none
    | some po =>
      if buffer_size < po.1 + 2 then none
      else
        if payload.isEmpty then some (po.2 ++ [0x11, 50])
        else if buffer_size < po.1 + 2 + 1 + payload.length then none
        else some (po.2 ++ [0x11, 50] ++ 255 :: payload)

/-- The option bytes `build_simple_coap_message` emits for a segment
list: first segment with delta nibble 11 (0xB0), the rest with delta 0. -/
def encodeSegs : Bool → List (List Nat) → List Nat
  | _, [] => []
  | first, seg :: rest =>
    ((if first then 176 + seg.length else seg.length) :: seg) ++ encodeSegs false rest

/-- Encoded size of the Uri-Path options: 1 option byte + the bytes of
each segment. -/
def segsEncLen (segs : List (List Nat)) : Nat :=
  (segs.map (fun s => 1 + s.length)).sum

/-- The payload section: nothing for an empty payload, else the 0xFF
marker followed by the payload bytes. -/
def payloadBytes (payload : List Nat) : List Nat :=
  if payload.isEmpty then [] else 255 :: payload

/-- Results of the three platform primitives `send_coap_udp` calls:
`socket()`, `inet_pton()` and `sendto()`. -/
structure udp_env where
  socket_res : Int
  pton_res : Int
  sendto_res : Int
deriving DecidableEq, Repr

/-- Observable outcome of one `send_coap_udp` call: the boolean it
returns, whether a socket was created, whether it was closed, and the
destination port actually used (`htons(uri->port)`, i.e. the C `int`
reduced to 16 bits). -/
structure udp_trace where
  success : Bool
  opened : Bool
  closed : Bool
  dst_port : Nat
deriving DecidableEq, Repr

/-- `send_coap_udp`: create the socket (fail without opening anything on
a negative descriptor), parse the address (close and fail on
`inet_pton <= 0`), send once, close, and succeed iff `sendto` did not
return a negative count. -/
def send_coap_udp (env : udp_env) (port : Int) (message_len : Nat) : udp_trace :=
  let dp := ((port % 65536).toNat)
  if env.socket_res < 0 then
    { success := false, opened := false, closed := false, dst_port := dp }
  else if env.pton_res ≤ 0 then
    { success := false, opened := true, closed := true, dst_port := dp }
  else if env.sendto_res < 0 then
    { success := false, opened := true, closed := true, dst_port := dp }
  else
    { success := true, opened := true, closed := true, dst_port := dp }

/-- The poll loop of `wait_for_wifi`: at poll `n` the readiness signal is
`ready n`; `fuel` polls remain. -/
def wait_poll (ready : Nat → Bool) : Nat → Nat → Bool
  | _, 0 => false
  | n, fuel + 1 => if ready n then true else wait_poll ready (n + 1) fuel

/-- `wait_for_wifi`: the C loop polls while `waited < timeout_ms`,
stepping `waited` by 100 each time, i.e. `ceil(timeout_ms / 100)` polls. -/
def wait_for_wifi (ready : Nat → Bool) (timeout_ms : Nat) : Bool :=
  wait_poll ready 0 ((timeout_ms + 99) / 100)

/-- Terminal outcome of one dispatch. -/
inductive DispatchOutcome where
  | networkUnavailable
  | parseFailed
  | buildFailed
  | sendFailed
  | sent
deriving DecidableEq, Repr

/-- The subsystems a dispatch invokes, in order. -/
inductive SendStep where
  | parseStep
  | buildStep
  | sendStep
deriving DecidableEq, Repr

/-- `coap_send_sensor_data`: parse the URI, build the message into the
512-byte stack buffer, send it; each failure short-circuits. The step
list records which subsystems ran. -/
def coap_send_sensor_data (env : udp_env) (uri payload : List Nat) :
    DispatchOutcome × List SendStep :=
  match parse_coap_uri uri with
  | none => (.parseFailed, [.parseStep])
  | some u =>
    match build_simple_coap_message u.path u.query payload 512 with
    | none => (.buildFailed, [.parseStep, .buildStep])
    | some msg =>
      if (send_coap_udp env u.port msg.length).success then
        (.sent, [.parseStep, .buildStep, .sendStep])
      else
        (.sendFailed, [.parseStep, .buildStep, .sendStep])

/-- `coap_send_task`: wait up to 10000 ms for the readiness signal; on
timeout terminate without invoking any other subsystem. -/
def coap_send_task (ready : Nat → Bool) (env : udp_env) (uri payload : List Nat) :
    DispatchOutcome × List SendStep :=
  if wait_for_wifi ready 10000 then coap_send_sensor_data env uri payload
  else (.networkUnavailable, [])

/-! ### Scanner lemmas -/

theorem matchLit_append (l r : List Nat) : matchLit l (l ++ r) = some r := by
  induction l with
  | nil => rfl
  | cons c cs ih => simp [matchLit, ih]

theorem matchLit_one (c : Nat) (r : List Nat) : matchLit [c] (c :: r) = some r := by
  simp [matchLit]

theorem matchLit_one_ne (c d : Nat) (r : List Nat) (h : c ≠ d) :
    matchLit [c] (d :: r) = none := by
  simp [matchLit, h]

theorem scanWhileUpTo_append (p : Nat → Bool) (xs : List Nat) :
    ∀ (max : Nat) (rest : List Nat), (∀ c ∈ xs, p c = true) → xs.length ≤ max →
    (∀ d, rest.head? = some d → p d = false) →
    scanWhileUpTo p max (xs ++ rest) = (xs, rest) := by
  induction xs with
  | nil =>
    intro max rest _ _ hstop
    cases max with
    | zero => rfl
    | succ m =>
      cases rest with
      | nil => rfl
      | cons d ds => simp [scanWhileUpTo, hstop d rfl]
  | cons c cs ih =>
    intro max rest hall hlen hstop
    cases max with
    | zero => simp at hlen
    | succ m =>
      have hc : p c = true := hall c (by simp)
      have := ih m rest (fun x hx => hall x (by simp [hx])) (by simpa using hlen) hstop
      simp [scanWhileUpTo, hc, this]

theorem scanSet_append (p : Nat → Bool) (xs rest : List Nat) (max : Nat)
    (hne : xs ≠ []) (hall : ∀ c ∈ xs, p c = true) (hlen : xs.length ≤ max)
    (hstop : ∀ d, rest.head? = some d → p d = false) :
    scanSet p max (xs ++ rest) = some (xs, rest) := by
  simp [scanSet, scanWhileUpTo_append p xs max rest hall hlen hstop, hne]

theorem takeWhile_append_eq (p : Nat → Bool) (xs rest : List Nat)
    (hall : ∀ c ∈ xs, p c = true) (hstop : ∀ d, rest.head? = some d → p d = false) :
    (xs ++ rest).takeWhile p = xs := by
  induction xs with
  | nil =>
    cases rest with
    | nil => rfl
    | cons d ds => simp [List.takeWhile, hstop d rfl]
  | cons c cs ih =>
    have hc : p c = true := hall c (by simp)
    simp [List.takeWhile, hc, ih (fun x hx => hall x (by simp [hx]))]

theorem scanUInt_append (ds rest : List Nat) (hne : ds ≠ [])
    (hd : ∀ c ∈ ds, isDigitB c = true)
    (hstop : ∀ d, rest.head? = some d → isDigitB d = false) :
    scanUInt (ds ++ rest) = some (digitsVal ds, rest) := by
  have htw := takeWhile_append_eq isDigitB ds rest hd hstop
  simp [scanUInt, htw, hne, List.drop_left]

theorem isSpaceB_of_digit (c : Nat) (h : isDigitB c = true) : isSpaceB c = false := by
  simp [isDigitB] at h
  simp [isSpaceB]
  omega

theorem skipWs_cons (c : Nat) (r : List Nat) (h : isSpaceB c = false) :
    skipWs (c :: r) = c :: r := by
  simp [skipWs, h]

theorem scanInt_digits (ds rest : List Nat) (hne : ds ≠ [])
    (hd : ∀ c ∈ ds, isDigitB c = true)
    (hstop : ∀ d, rest.head? = some d → isDigitB d = false) :
    scanInt (ds ++ rest) = some ((digitsVal ds : Int), rest) := by
  cases ds with
  | nil => exact absurd rfl hne
  | cons c cs =>
    have hcd : isDigitB c = true := hd c (by simp)
    have hge : 48 ≤ c := by simp [isDigitB] at hcd; omega
    have h45 : ¬(c = 45) := by omega
    have h43 : ¬(c = 43) := by omega
    have hsk : skipWs ((c :: cs) ++ rest) = c :: (cs ++ rest) :=
      skipWs_cons c (cs ++ rest) (isSpaceB_of_digit c hcd)
    have hsc : scanUInt (c :: (cs ++ rest)) = some (digitsVal (c :: cs), rest) :=
      scanUInt_append (c :: cs) rest (by simp) hd hstop
    simp only [scanInt, hsk]
    simp [h45, h43, hsc]

theorem scanStr_all (max : Nat) (xs : List Nat) (hne : xs ≠ [])
    (hall : ∀ c ∈ xs, isSpaceB c = false) (hlen : xs.length ≤ max) :
    scanStr max xs = some (xs, []) := by
  cases xs with
  | nil => exact absurd rfl hne
  | cons c cs =>
    have hsk : skipWs (c :: cs) = c :: cs := skipWs_cons c cs (hall c (by simp))
    have hsa := scanSet_append (fun x => !isSpaceB x) (c :: cs) [] max (by simp)
      (fun x hx => by simp [hall x hx]) hlen (by simp)
    rw [List.append_nil] at hsa
    simp only [scanStr, hsk]
    exact hsa

/-! ### Path/query split lemmas -/

theorem splitAtQm_eq_none (pa : List Nat) (h : ∀ c ∈ pa, c ≠ 63) :
    splitAtQm pa = none := by
  induction pa with
  | nil => rfl
  | cons c cs ih =>
    simp [splitAtQm, h c (by simp), ih (fun x hx => h x (by simp [hx]))]

theorem splitAtQm_eq_some (pa q : List Nat) (h : ∀ c ∈ pa, c ≠ 63) :
    splitAtQm (pa ++ 63 :: q) = some (pa, q) := by
  induction pa with
  | nil => rfl
  | cons c cs ih =>
    simp [splitAtQm, h c (by simp), ih (fun x hx => h x (by simp [hx]))]

theorem finishUri_noquery (host : List Nat) (port : Int) (pa : List Nat)
    (h63 : ∀ c ∈ pa, c ≠ 63) (hlen : pa.length ≤ 63) :
    finishUri host port pa = ⟨host, port, pa, []⟩ := by
  simp [finishUri, splitAtQm_eq_none pa h63, List.take_of_length_le hlen]

theorem finishUri_query (host : List Nat) (port : Int) (pa q : List Nat)
    (h63 : ∀ c ∈ pa, c ≠ 63) (hqlen : q.length ≤ 63) :
    finishUri host port (pa ++ 63 :: q) = ⟨host, port, pa, q⟩ := by
  simp [finishUri, splitAtQm_eq_some pa q h63, List.take_of_length_le hqlen]

/-! ### Format-string lemmas -/

theorem parseFmt1_some (h pd paq : List Nat)
    (hh : h ≠ []) (hhlen : h.length ≤ 63) (hhc : ∀ c ∈ h, c ≠ 58 ∧ c ≠ 47)
    (hpd : pd ≠ []) (hpdd : ∀ c ∈ pd, isDigitB c = true)
    (hpaq : paq ≠ []) (hpaqc : ∀ c ∈ paq, isSpaceB c = false)
    (hpaqlen : paq.length ≤ 127) :
    parseFmt1 (coapLit ++ (h ++ 58 :: (pd ++ 47 :: paq)))
      = some (h, ((digitsVal pd : Int), paq)) := by
  have e1 : scanSet (fun c => !(c = 58 || c = 47)) 63 (h ++ 58 :: (pd ++ 47 :: paq))
      = some (h, 58 :: (pd ++ 47 :: paq)) := by
    refine scanSet_append _ h _ 63 hh ?_ hhlen ?_
    · intro c hc
      have := hhc c hc
      simp [this.1, this.2]
    · intro d hd
      simp at hd
      subst hd
      decide
  have e2 : scanInt (pd ++ 47 :: paq) = some ((digitsVal pd : Int), 47 :: paq) := by
    refine scanInt_digits pd (47 :: paq) hpd hpdd ?_
    intro d hd
    simp at hd
    subst hd
    decide
  have e3 : scanStr 127 paq = some (paq, []) := scanStr_all 127 paq hpaq hpaqc hpaqlen
  simp only [parseFmt1, matchLit_append, matchLit_one, e1, e2, e3]

theorem parseFmt1_noport (h rest : List Nat)
    (hh : h ≠ []) (hhlen : h.length ≤ 63) (hhc : ∀ c ∈ h, c ≠ 58 ∧ c ≠ 47) :
    parseFmt1 (coapLit ++ (h ++ 47 :: rest)) = none := by
  have e1 : scanSet (fun c => !(c = 58 || c = 47)) 63 (h ++ 47 :: rest)
      = some (h, 47 :: rest) := by
    refine scanSet_append _ h _ 63 hh ?_ hhlen ?_
    · intro c hc
      have := hhc c hc
      simp [this.1, this.2]
    · intro d hd
      simp at hd
      subst hd
      decide
  simp only [parseFmt1, matchLit_append, e1]
  rw [matchLit_one_ne 58 47 _ (by decide)]

theorem parseFmt2_some (h paq : List Nat)
    (hh : h ≠ []) (hhlen : h.length ≤ 63) (hhc : ∀ c ∈ h, c ≠ 47)
    (hpaq : paq ≠ []) (hpaqc : ∀ c ∈ paq, isSpaceB c = false)
    (hpaqlen : paq.length ≤ 127) :
    parseFmt2 (coapLit ++ (h ++ 47 :: paq)) = some (h, paq) := by
  have e1 : scanSet (fun c => !(c = 47)) 63 (h ++ 47 :: paq)
      = some (h, 47 :: paq) := by
    refine scanSet_append _ h _ 63 hh ?_ hhlen ?_
    · intro c hc
      simp [hhc c hc]
    · intro d hd
      simp at hd
      subst hd
      decide
  have e3 : scanStr 127 paq = some (paq, []) := scanStr_all 127 paq hpaq hpaqc hpaqlen
  simp only [parseFmt2, matchLit_append, matchLit_one, e1, e3]

/-! ### strtok-split lemmas -/

theorem splitSegsAux_chunk (s : List Nat) :
    ∀ (r acc : List Nat), (∀ c ∈ s, c ≠ 47) →
    splitSegsAux (s ++ r) acc = splitSegsAux r (s.reverse ++ acc) := by
  induction s with
  | nil => intro r acc _; simp
  | cons c cs ih =>
    intro r acc hs
    have hc : ¬(c = 47) := hs c (by simp)
    simp only [List.cons_append, splitSegsAux, if_neg hc, List.append_eq]
    rw [ih r (c :: acc) (fun x hx => hs x (by simp [hx]))]
    simp

theorem splitSegs_intercalateSlash (segs : List (List Nat))
    (hne : ∀ s ∈ segs, s ≠ []) (hns : ∀ s ∈ segs, ∀ c ∈ s, c ≠ 47) :
    splitSegs (intercalateSlash segs) = segs := by
  induction segs with
  | nil => rfl
  | cons s rest ih =>
    have hsne : s ≠ [] := hne s (by simp)
    have hsns : ∀ c ∈ s, c ≠ 47 := hns s (by simp)
    cases rest with
    | nil =>
      show splitSegsAux (intercalateSlash [s]) [] = [s]
      have : intercalateSlash [s] = s ++ [] := by simp [intercalateSlash]
      rw [this, splitSegsAux_chunk s [] [] hsns]
      simp [splitSegsAux, hsne]
    | cons t r =>
      show splitSegsAux (s ++ 47 :: intercalateSlash (t :: r)) [] = s :: t :: r
      rw [splitSegsAux_chunk s _ [] hsns]
      have hrev : (s.reverse ++ []).isEmpty = false := by
        simp [List.isEmpty_iff, hsne]
      simp only [splitSegsAux, if_pos rfl, hrev, Bool.false_eq_true, if_neg]
      have ihr := ih (fun x hx => hne x (by simp [hx])) (fun x hx => hns x (by simp [hx]))
      simp only [splitSegs] at ihr
      simp [ihr]

theorem mem_intercalateSlash (P : Nat → Prop) (hP47 : P 47) :
    ∀ (segs : List (List Nat)), (∀ s ∈ segs, ∀ c ∈ s, P c) →
    ∀ c ∈ intercalateSlash segs, P c := by
  intro segs
  induction segs with
  | nil => intro _ c hc; simp [intercalateSlash] at hc
  | cons s rest ih =>
    intro h c hc
    cases rest with
    | nil => exact h s (by simp) c hc
    | cons t r =>
      simp only [intercalateSlash, List.mem_append, List.mem_cons] at hc
      rcases hc with hc | hc | hc
      · exact h s (by simp) c hc
      · exact hc ▸ hP47
      · exact ih (fun x hx => h x (by simp [hx])) c hc

theorem intercalateSlash_ne_nil (segs : List (List Nat))
    (h0 : segs ≠ []) (hne : ∀ s ∈ segs, s ≠ []) :
    intercalateSlash segs ≠ [] := by
  cases segs with
  | nil => exact absurd rfl h0
  | cons s rest =>
    cases rest with
    | nil => exact hne s (by simp)
    | cons t r =>
      have : s ≠ [] := hne s (by simp)
      simp [intercalateSlash]

/-! ### Simplified-encoder lemmas -/

theorem segsEncLen_cons (seg : List Nat) (rest : List (List Nat)) :
    segsEncLen (seg :: rest) = 1 + seg.length + segsEncLen rest := by
  simp [segsEncLen]

theorem buildSegsLoop_eq (size : Nat) (segs : List (List Nat)) :
    ∀ (first : Bool) (pos : Nat) (out : List Nat),
    (∀ s ∈ segs, s.length ≤ 12) → pos + segsEncLen segs ≤ size →
    buildSegsLoop size segs first pos out
      = some (pos + segsEncLen segs, out ++ encodeSegs first segs) := by
  induction segs with
  | nil => intro first pos out _ _; simp [buildSegsLoop, segsEncLen, encodeSegs]
  | cons seg rest ih =>
    intro first pos out h12 hcap
    rw [segsEncLen_cons] at hcap
    have hs12 : ¬(12 < seg.length) := by
      have := h12 seg (by simp)
      omega
    have hc : ¬(size < pos + 1 + seg.length) := by
      have h0 : 0 ≤ segsEncLen rest := Nat.zero_le _
      omega
    simp only [buildSegsLoop, if_neg hs12, if_neg hc]
    rw [ih false (pos + 1 + seg.length) _ (fun x hx => h12 x (by simp [hx])) (by omega)]
    rw [segsEncLen_cons]
    simp only [encodeSegs]
    congr 2
    · omega
    · simp

theorem buildSegsLoop_long_none (size : Nat) (segs : List (List Nat)) :
    ∀ (first : Bool) (pos : Nat) (out : List Nat),
    (∃ s ∈ segs, 12 < s.length) →
    buildSegsLoop size segs first pos out = none := by
  induction segs with
  | nil => intro _ _ _ h; simp at h
  | cons seg rest ih =>
    intro first pos out h
    by_cases h12 : 12 < seg.length
    · simp [buildSegsLoop, h12]
    · obtain ⟨s, hs, hlen⟩ := h
      rcases List.mem_cons.mp hs with rfl | hs
      · exact absurd hlen h12
      · by_cases hc : size < pos + 1 + seg.length
        · simp [buildSegsLoop, h12, hc]
        · simp only [buildSegsLoop, if_neg h12, if_neg hc]
          exact ih false _ _ ⟨s, hs, hlen⟩

theorem build_simple_eq (path query payload : List Nat) (size : Nat)
    (h63 : path.length ≤ 63)
    (h12 : ∀ s ∈ splitSegs path, s.length ≤ 12)
    (hfit : 4 + segsEncLen (splitSegs path) + 2 + (payloadBytes payload).length ≤ size) :
    build_simple_coap_message path query payload size
      = some ([0x40, 0x02, 0x12, 0x34] ++ encodeSegs true (splitSegs path)
          ++ [0x11, 50] ++ payloadBytes payload) := by
  have htake : path.take 63 = path := List.take_of_length_le h63
  have h4 : ¬(size < 4) := by omega
  have hloop := buildSegsLoop_eq size (splitSegs path) true 4
    [0x40, 0x02, 0x12, 0x34] h12 (by omega)
  simp only [build_simple_coap_message, htake, if_neg h4, hloop]
  have h2 : ¬(size < 4 + segsEncLen (splitSegs path) + 2) := by omega
  simp only [if_neg h2]
  by_cases hp : payload.isEmpty
  · have : (payloadBytes payload) = [] := by simp [payloadBytes, hp]
    simp [hp, this]
  · have hpb : payloadBytes payload = 255 :: payload := by simp [payloadBytes, hp]
    have hplen : ¬(size < 4 + segsEncLen (splitSegs path) + 2 + 1 + payload.length) := by
      rw [hpb] at hfit
      simp at hfit
      omega
    simp [hp, if_neg hplen, hpb]

/-! ### Option-builder lemmas -/

theorem extNibbleBytes_length (v : Nat) :
    (extNibbleBytes v (nibbleFor v)).length
      = (if 13 ≤ v then 1 else 0) + (if 269 ≤ v then 1 else 0) := by
  unfold extNibbleBytes nibbleFor
  by_cases h13 : v < 13
  · have ha : ¬(v = 13) := by omega
    have hb : ¬(v = 14) := by omega
    rcases Nat.lt_or_ge v 13 with h | h
    · simp only [if_pos h13]
      have : ¬(13 ≤ v) := by omega
      have h269 : ¬(269 ≤ v) := by omega
      simp [ha, hb, this, h269]
    · omega
  · by_cases h269 : v < 269
    · simp only [if_neg h13, if_pos h269]
      have : (13 : Nat) = 13 := rfl
      have hle : 13 ≤ v := by omega
      have hle2 : ¬(269 ≤ v) := by omega
      simp [hle, hle2]
    · simp only [if_neg h13, if_neg h269]
      have hle : 13 ≤ v := by omega
      have hle2 : 269 ≤ v := by omega
      simp [hle, hle2]

theorem optBytes_length (delta : Nat) (value : List Nat) :
    ((nibbleFor delta * 16 + nibbleFor value.length)
        :: (extNibbleBytes delta (nibbleFor delta)
            ++ extNibbleBytes value.length (nibbleFor value.length)
            ++ value)).length = optSpaceNeeded delta value.length := by
  simp [optSpaceNeeded, extNibbleBytes_length]
  omega

theorem add_option_overflow (msg : coap_message_t) (option_number : Nat)
    (value : List Nat)
    (h : msg.capacity < msg.length
        + optSpaceNeeded (optDelta msg.last_option_number option_number) value.length) :
    coap_message_add_option msg option_number value = (false, msg) := by
  simp [coap_message_add_option, h]

theorem add_option_fits (msg : coap_message_t) (option_number : Nat)
    (value : List Nat)
    (h : msg.length
        + optSpaceNeeded (optDelta msg.last_option_number option_number) value.length
        ≤ msg.capacity) :
    coap_message_add_option msg option_number value
      = (true, { buffer := writeBytes msg.buffer msg.length
                    ((nibbleFor (optDelta msg.last_option_number option_number) * 16
                        + nibbleFor value.length)
                      :: (extNibbleBytes (optDelta msg.last_option_number option_number)
                            (nibbleFor (optDelta msg.last_option_number option_number))
                          ++ extNibbleBytes value.length (nibbleFor value.length)
                          ++ value)),
                 length := msg.length
                    + optSpaceNeeded (optDelta msg.last_option_number option_number)
                        value.length,
                 capacity := msg.capacity,
                 last_option_number := option_number }) := by
  have hno : ¬(msg.capacity < msg.length
      + optSpaceNeeded (optDelta msg.last_option_number option_number) value.length) := by
    omega
  simp only [coap_message_add_option, if_neg hno, optBytes_length]

/-! ### Readiness-wait lemma -/

theorem wait_poll_false (ready : Nat → Bool) (h : ∀ n, ready n = false) :
    ∀ (fuel start : Nat), wait_poll ready start fuel = false := by
  intro fuel
  induction fuel with
  | zero => intro start; rfl
  | succ k ih => intro start; simp [wait_poll, h start, ih]

/-! ### Claims -/

/-- Claim C1: for every path (at most 63 bytes, as the `coap_uri_t.path`
field holds) whose `strtok` segments are each non-empty and at most 12
bytes, and every non-empty payload whose total encoded size fits the
buffer capacity, `build_simple_coap_message` succeeds and produces
exactly: the 4-byte header `40 02 12 34`, one Uri-Path option per
segment in order (first delta nibble 11, subsequent delta 0, length
nibble = segment length, then the raw bytes), the Content-Format option
bytes `11 32` (value 50 = JSON), one 0xFF marker, then the payload; the
query string has no effect on the produced bytes. -/
theorem claim_C1 (path query payload : List Nat) (size : Nat)
    (h63 : path.length ≤ 63)
    (hseg : ∀ s ∈ splitSegs path, s ≠ [] ∧ s.length ≤ 12)
    (hp : payload ≠ [])
    (hfit : 4 + segsEncLen (splitSegs path) + 2 + 1 + payload.length ≤ size) :
    build_simple_coap_message path query payload size
      = some ([0x40, 0x02, 0x12, 0x34] ++ encodeSegs true (splitSegs path)
          ++ [0x11, 50] ++ 255 :: payload) ∧
    ∀ query2, build_simple_coap_message path query2 payload size
      = build_simple_coap_message path query payload size := by
  have hne : payload.isEmpty = false := by simp [List.isEmpty_iff, hp]
  have hpb : payloadBytes payload = 255 :: payload := by simp [payloadBytes, hne]
  constructor
  · have hb := build_simple_eq path query payload size h63 (fun s hs => (hseg s hs).2)
      (by rw [hpb]; simp; omega)
    rw [hb, hpb]
  · intro query2
    rfl

/-- Claim C1 witness: concrete two-segment path and payload. -/
theorem claim_C1_witness :
    build_simple_coap_message (strBytes "sensor/send-data") (strBytes "k=1")
        (strBytes "t1") 512
      = some ([0x40, 0x02, 0x12, 0x34]
          ++ encodeSegs true (splitSegs (strBytes "sensor/send-data"))
          ++ [0x11, 50] ++ 255 :: strBytes "t1") :=
  (claim_C1 (strBytes "sensor/send-data") (strBytes "k=1") (strBytes "t1") 512
    (by decide) (by decide) (by decide) (by decide)).1

/-- Claim C2: `coap_message_add_option` and `coap_message_add_payload`
are atomic: each first computes the exact additional byte count
(including extended delta/length escape bytes for the option case); if
adding it to the current length would exceed the capacity the call
returns false with the message (length field and buffer) unchanged, and
on success the length advances by exactly the computed count. -/
theorem claim_C2 (msg : coap_message_t) (option_number : Nat)
    (value payload : List Nat) :
    (msg.capacity < msg.length
        + optSpaceNeeded (optDelta msg.last_option_number option_number) value.length →
      coap_message_add_option msg option_number value = (false, msg)) ∧
    (msg.length
        + optSpaceNeeded (optDelta msg.last_option_number option_number) value.length
        ≤ msg.capacity →
      (coap_message_add_option msg option_number value).1 = true ∧
      (coap_message_add_option msg option_number value).2.length
        = msg.length
          + optSpaceNeeded (optDelta msg.last_option_number option_number) value.length) ∧
    (payload ≠ [] → msg.capacity < msg.length + 1 + payload.length →
      coap_message_add_payload msg payload = (false, msg)) ∧
    (payload ≠ [] → msg.length + 1 + payload.length ≤ msg.capacity →
      (coap_message_add_payload msg payload).1 = true ∧
      (coap_message_add_payload msg payload).2.length
        = msg.length + 1 + payload.length) := by
  refine ⟨?_, ?_, ?_, ?_⟩
  · intro hov
    exact add_option_overflow msg option_number value hov
  · intro hfits
    rw [add_option_fits msg option_number value hfits]
    exact ⟨rfl, rfl⟩
  · intro hp hov
    have hne : payload.isEmpty = false := by simp [List.isEmpty_iff, hp]
    simp [coap_message_add_payload, hne, hov]
  · intro hp hfits
    have hne : payload.isEmpty = false := by simp [List.isEmpty_iff, hp]
    have hno : ¬(msg.capacity < msg.length + 1 + payload.length) := by omega
    simp [coap_message_add_payload, hne, hno]

/-- Claim C2 witness: one fitting and one overflowing call of each
builder operation. -/
theorem claim_C2_witness :
    (coap_message_add_option ⟨List.replicate 8 0, 4, 8, 0⟩ 11 [97]).1 = true ∧
    (coap_message_add_option ⟨List.replicate 8 0, 4, 8, 0⟩ 11 [97]).2.length = 6 ∧
    coap_message_add_option ⟨List.replicate 4 0, 4, 4, 0⟩ 11 [97]
      = (false, ⟨List.replicate 4 0, 4, 4, 0⟩) ∧
    (coap_message_add_payload ⟨List.replicate 8 0, 4, 8, 0⟩ [98, 99]).1 = true ∧
    coap_message_add_payload ⟨List.replicate 4 0, 4, 4, 0⟩ [98, 99]
      = (false, ⟨List.replicate 4 0, 4, 4, 0⟩) := by
  refine ⟨((claim_C2 ⟨List.replicate 8 0, 4, 8, 0⟩ 11 [97] [98, 99]).2.1 (by decide)).1,
    ?_, (claim_C2 ⟨List.replicate 4 0, 4, 4, 0⟩ 11 [97] [98, 99]).1 (by decide),
    ((claim_C2 ⟨List.replicate 8 0, 4, 8, 0⟩ 11 [97] [98, 99]).2.2.2 (by decide)
      (by decide)).1,
    (claim_C2 ⟨List.replicate 4 0, 4, 4, 0⟩ 11 [97] [98, 99]).2.2.1 (by decide)
      (by decide)⟩
  have h := ((claim_C2 ⟨List.replicate 8 0, 4, 8, 0⟩ 11 [97] [98, 99]).2.1 (by decide)).2
  rw [h]
  decide

/-- Claim C6: any path (fitting its 63-byte field) containing a strtok
segment longer than 12 bytes makes `build_simple_coap_message` fail:
the segment is rejected, never truncated, and no message is produced. -/
theorem claim_C6 (path query payload : List Nat) (size : Nat)
    (h63 : path.length ≤ 63)
    (hbad : ∃ s ∈ splitSegs path, 12 < s.length) :
    build_simple_coap_message path query payload size = none := by
  unfold build_simple_coap_message
  rw [List.take_of_length_le h63]
  rw [buildSegsLoop_long_none size (splitSegs path) true 4 [0x40, 0x02, 0x12, 0x34] hbad]
  simp

/-- Claim C6 witness: a 13-byte segment is rejected. -/
theorem claim_C6_witness :
    build_simple_coap_message (strBytes "thirteenbytes") [] [49] 512 = none :=
  claim_C6 (strBytes "thirteenbytes") [] [49] 512 (by decide) (by decide)

/-- Claim C10: the general option builder does not reject out-of-order
appends: with `last_option_number = L` and an option number `n < L`
whose encoding fits the remaining capacity, the call succeeds, records
`n`, and encodes the delta `(n - L) mod 2^16` produced by the unsigned
16-bit subtraction (consuming exactly the space that wrapped delta
requires). -/
theorem claim_C10 (msg : coap_message_t) (option_number : Nat) (value : List Nat)
    (hlast : msg.last_option_number < 65536)
    (hlt : option_number < msg.last_option_number)
    (hcap : msg.length
        + optSpaceNeeded (option_number + 65536 - msg.last_option_number) value.length
        ≤ msg.capacity) :
    (coap_message_add_option msg option_number value).1 = true ∧
    (optDelta msg.last_option_number option_number : Int)
      = ((option_number : Int) - (msg.last_option_number : Int)) % 65536 ∧
    (coap_message_add_option msg option_number value).2.last_option_number
      = option_number ∧
    (coap_message_add_option msg option_number value).2.length
      = msg.length
        + optSpaceNeeded (option_number + 65536 - msg.last_option_number)
            value.length := by
  have hdelta : optDelta msg.last_option_number option_number
      = option_number + 65536 - msg.last_option_number := by
    unfold optDelta
    apply Nat.mod_eq_of_lt
    omega
  have hfits : msg.length
      + optSpaceNeeded (optDelta msg.last_option_number option_number) value.length
      ≤ msg.capacity := by
    rw [hdelta]
    exact hcap
  rw [add_option_fits msg option_number value hfits]
  refine ⟨rfl, ?_, rfl, by rw [hdelta]⟩
  unfold optDelta
  omega

/-- Claim C10 witness: appending option 10 after option 20 succeeds with
the wrapped two-byte-extended delta. -/
theorem claim_C10_witness :
    (coap_message_add_option ⟨List.replicate 60 0, 4, 60, 20⟩ 10 []).1 = true ∧
    (coap_message_add_option ⟨List.replicate 60 0, 4, 60, 20⟩ 10 []).2.last_option_number
      = 10 := by
  have h := claim_C10 ⟨List.replicate 60 0, 4, 60, 20⟩ 10 [] (by decide) (by decide)
    (by decide)
  exact ⟨h.1, h.2.2.1⟩

/-- Claim C4 counterexample: `sendto` returning 0 while 5 bytes were
requested is a short send, yet `send_coap_udp` reports success — the
code only checks `sent < 0` and never compares `sent` with
`message_len`. -/
theorem claim_C4_counterexample :
    (send_coap_udp ⟨3, 1, 0⟩ 5683 5).success = true ∧ (0 : Int) < 5 := by
  decide

/-- Claim C4 (amended): with the socket created and the address parsed,
`send_coap_udp` reports success iff the platform send primitive returns
a non-negative result; a short send (non-negative but fewer bytes than
requested) is still reported as success. -/
theorem claim_C4 (env : udp_env) (port : Int) (message_len : Nat)
    (hsock : 0 ≤ env.socket_res) (hpton : 0 < env.pton_res) :
    (send_coap_udp env port message_len).success = true ↔ 0 ≤ env.sendto_res := by
  unfold send_coap_udp
  have h1 : ¬(env.socket_res < 0) := by omega
  have h2 : ¬(env.pton_res ≤ 0) := by omega
  by_cases h3 : env.sendto_res < 0 <;> simp [h1, h2, h3]
  omega

/-- Claim C4 witness: a full send reports success, a failed send does
not. -/
theorem claim_C4_witness :
    (send_coap_udp ⟨3, 1, 10⟩ 5683 10).success = true ∧
    ¬((send_coap_udp ⟨3, 1, -1⟩ 5683 10).success = true) := by
  constructor
  · exact (claim_C4 ⟨3, 1, 10⟩ 5683 10 (by decide) (by decide)).mpr (by decide)
  · intro hc
    have := (claim_C4 ⟨3, 1, -1⟩ 5683 10 (by decide) (by decide)).mp hc
    exact absurd this (by decide)

/-- Claim C5 counterexample: with an empty path no Uri-Path option is
emitted, yet the Content-Format byte is still the hardcoded 0x11 —
delta nibble 1, encoding option number 0 + 1 = 1, not the 12 the claim
requires (which would need delta nibble 12, byte 0xC1). -/
theorem claim_C5_counterexample :
    build_simple_coap_message [] [] [123] 512
      = some [0x40, 0x02, 0x12, 0x34, 0x11, 50, 255, 123] ∧
    (0x11 : Nat) / 16 = 1 ∧ (1 : Nat) ≠ 12 := by
  decide

/-- Claim C5 (amended): in every built message the Content-Format
option is emitted as the fixed byte pair `11 32`: delta nibble 1 and
length nibble 1, value 50 (the JSON code). The delta is hardcoded, not
computed from the last emitted option number: it encodes option
11 + 1 = 12 exactly when at least one Uri-Path option (number 11)
precedes it, and option 1 when the path has no segments. -/
theorem claim_C5 (path query payload : List Nat) (size : Nat)
    (h63 : path.length ≤ 63)
    (h12 : ∀ s ∈ splitSegs path, s.length ≤ 12)
    (hfit : 4 + segsEncLen (splitSegs path) + 2 + (payloadBytes payload).length ≤ size) :
    build_simple_coap_message path query payload size
      = some ([0x40, 0x02, 0x12, 0x34] ++ encodeSegs true (splitSegs path)
          ++ [0x11, 50] ++ payloadBytes payload) ∧
    (0x11 : Nat) = (12 - 11) * 16 + 1 :=
  ⟨build_simple_eq path query payload size h63 h12 hfit, by decide⟩

/-- Claim C5 witness: one-segment path, the Content-Format pair follows
the Uri-Path option. -/
theorem claim_C5_witness :
    build_simple_coap_message (strBytes "sensor") [] (strBytes "t1") 512
      = some ([0x40, 0x02, 0x12, 0x34]
          ++ encodeSegs true (splitSegs (strBytes "sensor"))
          ++ [0x11, 50] ++ payloadBytes (strBytes "t1")) ∧
    (0x11 : Nat) = (12 - 11) * 16 + 1 :=
  claim_C5 (strBytes "sensor") [] (strBytes "t1") 512 (by decide) (by decide)
    (by decide)

/-- Claim C7: if the readiness signal never becomes true, the 10000 ms
wait (100 ms polls) returns false and `coap_send_task` terminates with
the network-unavailable outcome having invoked neither the URI parser,
nor the encoder, nor the UDP transport (empty step list). -/
theorem claim_C7 (ready : Nat → Bool) (env : udp_env) (uri payload : List Nat)
    (h : ∀ n, ready n = false) :
    wait_for_wifi ready 10000 = false ∧
    coap_send_task ready env uri payload = (DispatchOutcome.networkUnavailable, []) := by
  have hw : wait_for_wifi ready 10000 = false := wait_poll_false ready h _ _
  exact ⟨hw, by simp [coap_send_task, hw]⟩

/-- Claim C7 witness: constant-false readiness signal. -/
theorem claim_C7_witness :
    coap_send_task (fun _ => false) ⟨3, 1, 4⟩ (strBytes "coap://10.0.0.5/a")
        (strBytes "t1")
      = (DispatchOutcome.networkUnavailable, []) :=
  (claim_C7 (fun _ => false) ⟨3, 1, 4⟩ (strBytes "coap://10.0.0.5/a")
    (strBytes "t1") (fun _ => rfl)).2

/-- Claim C8: whenever socket creation succeeds, `send_coap_udp` closes
the socket before returning on each exit path: address-parse failure,
send failure, and successful send. -/
theorem claim_C8 (env : udp_env) (port : Int) (message_len : Nat)
    (hsock : 0 ≤ env.socket_res) :
    (send_coap_udp env port message_len).opened = true ∧
    (send_coap_udp env port message_len).closed = true := by
  unfold send_coap_udp
  have h1 : ¬(env.socket_res < 0) := by omega
  by_cases h2 : env.pton_res ≤ 0 <;> by_cases h3 : env.sendto_res < 0 <;>
    simp [h1, h2, h3]

/-- Claim C8 witness: the socket is closed on all three exit paths. -/
theorem claim_C8_witness :
    (send_coap_udp ⟨3, 0, 4⟩ 5683 4).closed = true ∧
    (send_coap_udp ⟨3, 1, -1⟩ 5683 4).closed = true ∧
    (send_coap_udp ⟨3, 1, 4⟩ 5683 4).closed = true :=
  ⟨(claim_C8 ⟨3, 0, 4⟩ 5683 4 (by decide)).2,
   (claim_C8 ⟨3, 1, -1⟩ 5683 4 (by decide)).2,
   (claim_C8 ⟨3, 1, 4⟩ 5683 4 (by decide)).2⟩

/-- Claim C3: every well-formed endpoint `coap://h[:p]/seg1/.../segN[?q]`
whose components fit the fixed widths (host ≤ 63 bytes, path ≤ 63
bytes, query ≤ 63 bytes) is accepted by `parse_coap_uri`, which
recovers host `h`, port `p` (5683 when absent), a path that strtok
splits into exactly the segments in order, and query `q` (empty when
absent). -/
theorem claim_C3 (hasPort hasQuery : Bool) (h pd q : List Nat)
    (segs : List (List Nat))
    (hh0 : h ≠ []) (hhlen : h.length ≤ 63)
    (hhc : ∀ c ∈ h, c ≠ 58 ∧ c ≠ 47)
    (hpd0 : pd ≠ []) (hpdd : ∀ c ∈ pd, isDigitB c = true)
    (hpv : digitsVal pd ≤ 65535)
    (hsegs0 : segs ≠ [])
    (hsegs : ∀ s ∈ segs, s ≠ [] ∧ ∀ c ∈ s, c ≠ 47 ∧ c ≠ 63 ∧ isSpaceB c = false)
    (hq : ∀ c ∈ q, isSpaceB c = false)
    (hplen : (intercalateSlash segs).length ≤ 63) (hqlen : q.length ≤ 63) :
    parse_coap_uri (coapLit ++ (h ++ (if hasPort then 58 :: pd else [])
        ++ 47 :: (intercalateSlash segs ++ (if hasQuery then 63 :: q else []))))
      = some { host := h,
               port := if hasPort then (digitsVal pd : Int) else 5683,
               path := intercalateSlash segs,
               query := if hasQuery then q else [] } ∧
    splitSegs (intercalateSlash segs) = segs := by
  have hpne : intercalateSlash segs ≠ [] :=
    intercalateSlash_ne_nil segs hsegs0 (fun s hs => (hsegs s hs).1)
  have hpws : ∀ c ∈ intercalateSlash segs, isSpaceB c = false :=
    mem_intercalateSlash (fun c => isSpaceB c = false) (by decide) segs
      (fun s hs c hc => ((hsegs s hs).2 c hc).2.2)
  have hp63 : ∀ c ∈ intercalateSlash segs, c ≠ 63 :=
    mem_intercalateSlash (fun c => c ≠ 63) (by decide) segs
      (fun s hs c hc => ((hsegs s hs).2 c hc).2.1)
  have hsplit : splitSegs (intercalateSlash segs) = segs :=
    splitSegs_intercalateSlash segs (fun s hs => (hsegs s hs).1)
      (fun s hs c hc => ((hsegs s hs).2 c hc).1)
  have hpaqne : intercalateSlash segs ++ (if hasQuery then 63 :: q else []) ≠ [] := by
    intro hcontra
    exact hpne (List.append_eq_nil.mp hcontra).1
  have hpaqws : ∀ c ∈ intercalateSlash segs ++ (if hasQuery then 63 :: q else []),
      isSpaceB c = false := by
    intro c hc
    rcases List.mem_append.mp hc with hc | hc
    · exact hpws c hc
    · cases hasQuery with
      | false => simp at hc
      | true =>
        simp only [if_pos] at hc
        rcases List.mem_cons.mp hc with rfl | hc
        · decide
        · exact hq c hc
  have hpaqlen : (intercalateSlash segs ++ (if hasQuery then 63 :: q else [])).length
      ≤ 127 := by
    rw [List.length_append]
    cases hasQuery with
    | false => simp; omega
    | true => simp; omega
  have hfin : ∀ P : Int,
      finishUri h P (intercalateSlash segs ++ (if hasQuery then 63 :: q else []))
        = ⟨h, P, intercalateSlash segs, if hasQuery then q else []⟩ := by
    intro P
    cases hasQuery with
    | false =>
      simp only [if_neg Bool.false_ne_true, List.append_nil]
      exact finishUri_noquery h P (intercalateSlash segs) hp63 hplen
    | true =>
      simp only [if_pos]
      exact finishUri_query h P (intercalateSlash segs) q hp63 hqlen
  refine ⟨?_, hsplit⟩
  cases hasPort with
  | true =>
    have huri : coapLit ++ (h ++ (if true then 58 :: pd else [])
        ++ 47 :: (intercalateSlash segs ++ (if hasQuery then 63 :: q else [])))
        = coapLit ++ (h ++ 58 :: (pd
            ++ 47 :: (intercalateSlash segs ++ (if hasQuery then 63 :: q else [])))) := by
      simp
    rw [huri]
    have e1 := parseFmt1_some h pd
      (intercalateSlash segs ++ (if hasQuery then 63 :: q else []))
      hh0 hhlen hhc hpd0 hpdd hpaqne hpaqws hpaqlen
    simp only [parse_coap_uri, e1, hfin (digitsVal pd : Int)]
    simp
  | false =>
    have huri : coapLit ++ (h ++ (if false then 58 :: pd else [])
        ++ 47 :: (intercalateSlash segs ++ (if hasQuery then 63 :: q else [])))
        = coapLit ++ (h
            ++ 47 :: (intercalateSlash segs ++ (if hasQuery then 63 :: q else []))) := by
      simp
    rw [huri]
    have e0 := parseFmt1_noport h
      (intercalateSlash segs ++ (if hasQuery then 63 :: q else [])) hh0 hhlen hhc
    have e2 := parseFmt2_some h
      (intercalateSlash segs ++ (if hasQuery then 63 :: q else []))
      hh0 hhlen (fun c hc => (hhc c hc).2) hpaqne hpaqws hpaqlen
    simp only [parse_coap_uri, e0, e2, hfin 5683]
    simp

/-- Claim C3 witness: `coap://192.168.1.52:5683/sensor/send-data?k=1`. -/
theorem claim_C3_witness :
    parse_coap_uri (coapLit ++ (strBytes "192.168.1.52" ++ 58 :: strBytes "5683"
        ++ 47 :: (intercalateSlash [strBytes "sensor", strBytes "send-data"]
            ++ 63 :: strBytes "k=1")))
      = some { host := strBytes "192.168.1.52", port := 5683,
               path := intercalateSlash [strBytes "sensor", strBytes "send-data"],
               query := strBytes "k=1" } ∧
    splitSegs (intercalateSlash [strBytes "sensor", strBytes "send-data"])
      = [strBytes "sensor", strBytes "send-data"] := by
  have h := claim_C3 true true (strBytes "192.168.1.52") (strBytes "5683")
    (strBytes "k=1") [strBytes "sensor", strBytes "send-data"]
    (by decide) (by decide) (by decide) (by decide) (by decide) (by decide)
    (by decide) (by decide) (by decide) (by decide) (by decide)
  have e : digitsVal (strBytes "5683") = 5683 := by decide
  rw [e] at h
  exact h

/-- Claim C9 counterexample: the URI `coap://10.0.0.5:70000/a` carries
the out-of-range port 70000, yet `parse_coap_uri` accepts it and stores
70000 — there is no 16-bit range check. -/
theorem claim_C9_counterexample :
    parse_coap_uri (strBytes "coap://10.0.0.5:70000/a")
      = some { host := strBytes "10.0.0.5", port := 70000,
               path := strBytes "a", query := [] } ∧
    (65535 : Int) < 70000 := by
  decide

/-- Claim C9 (amended): `parse_coap_uri` performs no range check on the
port: for any digit string it stores the parsed integer as-is in the C
`int` field, even above 65535; the 16-bit reduction only happens in
`send_coap_udp`, whose `htons(uri->port)` uses `port mod 2^16`. -/
theorem claim_C9 (pd : List Nat) (hpd0 : pd ≠ [])
    (hpdd : ∀ c ∈ pd, isDigitB c = true) (env : udp_env) (len : Nat) :
    parse_coap_uri (coapLit ++ (strBytes "10.0.0.5" ++ 58 :: (pd ++ 47 :: strBytes "a")))
      = some { host := strBytes "10.0.0.5", port := (digitsVal pd : Int),
               path := strBytes "a", query := [] } ∧
    (send_coap_udp env (digitsVal pd : Int) len).dst_port
      = (((digitsVal pd : Int)) % 65536).toNat := by
  constructor
  · have e1 := parseFmt1_some (strBytes "10.0.0.5") pd (strBytes "a")
      (by decide) (by decide) (by decide) hpd0 hpdd (by decide) (by decide) (by decide)
    simp only [parse_coap_uri, e1]
    rw [finishUri_noquery _ _ _ (by decide) (by decide)]
  · unfold send_coap_udp
    split_ifs <;> rfl

/-- Claim C9 witness: port digit string `70000`. -/
theorem claim_C9_witness :
    parse_coap_uri (coapLit ++ (strBytes "10.0.0.5"
        ++ 58 :: (strBytes "70000" ++ 47 :: strBytes "a")))
      = some { host := strBytes "10.0.0.5", port := 70000,
               path := strBytes "a", query := [] } ∧
    (send_coap_udp ⟨3, 1, 4⟩ ((70000 : Nat) : Int) 8).dst_port = 4464 := by
  have h := claim_C9 (strBytes "70000") (by decide) (by decide) ⟨3, 1, 4⟩ 8
  have e : digitsVal (strBytes "70000") = 70000 := by decide
  rw [e] at h
  exact ⟨h.1, by rw [h.2]; decide⟩
